import Mathlib

set_option linter.unusedSectionVars false

/-!
Shallow embedding of the hqs-copy-trader replication core
(`src/backend/app/engine/*`, `src/backend/app/api/reconcile.py`) and proofs
of the specification's testable properties against it.

Python `dict`s are embedded as association lists with dict semantics
(`AssocMap.insert` overwrites, `AssocMap.erase` deletes the key), Python
numeric quantities and multipliers as exact integers and rationals, and
Python's built-in banker's rounding `round()` as `pythonRound`.
-/

namespace AssocMap

variable {α : Type} {β : Type} [DecidableEq α]

/-- Dict lookup `d.get(k)` / `d[k]`: value of the first matching key. -/
def lookup (k : α) : List (α × β) → Option β
  | [] => none
  | (k', v) :: rest => if k' = k then some v else lookup k rest

/-- Dict deletion `d.pop(k, None)` / `del d[k]`: removes every pair with
the key (association lists built by `insert` hold it at most once). -/
def erase (k : α) (l : List (α × β)) : List (α × β) :=
  l.filter (fun p => p.1 ≠ k)

/-- Dict assignment `d[k] = v`: the new pair shadows and replaces any
previous binding of `k`. -/
def insert (k : α) (v : β) (l : List (α × β)) : List (α × β) :=
  (k, v) :: erase k l

/-- Keys are pairwise distinct, as in a Python dict. -/
def NodupKeys (l : List (α × β)) : Prop :=
  (l.map Prod.fst).Nodup

@[simp] theorem lookup_nil (k : α) : lookup k ([] : List (α × β)) = none := rfl

@[simp] theorem lookup_cons (k k' : α) (v : β) (l : List (α × β)) :
    lookup k ((k', v) :: l) = if k' = k then some v else lookup k l := rfl

@[simp] theorem erase_nil (k : α) : erase k ([] : List (α × β)) = [] := rfl

theorem erase_cons (k : α) (p : α × β) (l : List (α × β)) :
    erase k (p :: l) = if p.1 = k then erase k l else p :: erase k l := by
  by_cases h : p.1 = k <;> simp [erase, List.filter_cons, h]

@[simp] theorem lookup_erase_self (k : α) (l : List (α × β)) :
    lookup k (erase k l) = none := by
  induction l with
  | nil => rfl
  | cons p rest ih =>
    rw [erase_cons]
    by_cases h : p.1 = k
    · simpa [h] using ih
    · cases p with
      | mk a b => simp only at h; simp [lookup, h, ih]

@[simp] theorem lookup_erase_ne (k k' : α) (l : List (α × β)) (h : k' ≠ k) :
    lookup k' (erase k l) = lookup k' l := by
  induction l with
  | nil => rfl
  | cons p rest ih =>
    rw [erase_cons]
    cases p with
    | mk a b =>
      by_cases hak : a = k
      · have hak' : ¬ a = k' := by rw [hak]; exact fun hc => h hc.symm
        rw [if_pos hak, ih, lookup_cons, if_neg hak']
      · rw [if_neg hak, lookup_cons, lookup_cons]
        by_cases hak' : a = k'
        · rw [if_pos hak', if_pos hak']
        · rw [if_neg hak', if_neg hak', ih]

@[simp] theorem lookup_insert_self (k : α) (v : β) (l : List (α × β)) :
    lookup k (insert k v l) = some v := by
  simp [insert, lookup]

@[simp] theorem lookup_insert_ne (k k' : α) (v : β) (l : List (α × β)) (h : k' ≠ k) :
    lookup k' (insert k v l) = lookup k' l := by
  have hk : ¬ k = k' := fun hc => h hc.symm
  simp [insert, lookup, hk, lookup_erase_ne k k' l h]

theorem lookup_mem {k : α} {v : β} {l : List (α × β)} (h : lookup k l = some v) :
    (k, v) ∈ l := by
  induction l with
  | nil => simp [lookup] at h
  | cons p rest ih =>
    cases p with
    | mk a b =>
      by_cases ha : a = k
      · rw [lookup_cons, if_pos ha] at h
        cases h
        simp [ha]
      · rw [lookup_cons, if_neg ha] at h
        exact List.mem_cons_of_mem _ (ih h)

theorem mem_lookup_of_nodup {k : α} {v : β} {l : List (α × β)}
    (hn : NodupKeys l) (h : (k, v) ∈ l) : lookup k l = some v := by
  induction l with
  | nil => simp at h
  | cons p rest ih =>
    cases p with
    | mk a b =>
      rcases List.mem_cons.mp h with h1 | h2
      · cases h1
        simp [lookup]
      · have hk : a ≠ k := by
          intro hak
          subst hak
          have hmem : a ∈ rest.map Prod.fst := List.mem_map.mpr ⟨(a, v), h2, rfl⟩
          exact (List.nodup_cons.mp hn).1 hmem
        have hn' : NodupKeys rest := (List.nodup_cons.mp hn).2
        simp [lookup, hk, ih hn' h2]

theorem nodupKeys_erase (k : α) {l : List (α × β)} (hn : NodupKeys l) :
    NodupKeys (erase k l) := by
  induction l with
  | nil => exact hn
  | cons p rest ih =>
    have hn1 := (List.nodup_cons.mp hn).1
    have hn2 : NodupKeys rest := (List.nodup_cons.mp hn).2
    rw [erase_cons]
    by_cases h : p.1 = k
    · simpa [h] using ih hn2
    · rw [if_neg h]
      unfold NodupKeys at *
      rw [List.map_cons, List.nodup_cons]
      refine ⟨?_, ih hn2⟩
      intro hc
      rcases List.mem_map.mp hc with ⟨q, hq, hq1⟩
      exact hn1 (List.mem_map.mpr ⟨q, List.mem_of_mem_filter hq, hq1⟩)

theorem nodupKeys_insert (k : α) (v : β) {l : List (α × β)} (hn : NodupKeys l) :
    NodupKeys (insert k v l) := by
  unfold NodupKeys insert
  rw [List.map_cons, List.nodup_cons]
  refine ⟨?_, nodupKeys_erase k hn⟩
  intro hc
  rcases List.mem_map.mp hc with ⟨q, hq, hq1⟩
  have hne := List.of_mem_filter hq
  simp only [ne_eq, decide_not, Bool.not_eq_true', decide_eq_false_iff_not] at hne
  exact hne hq1

theorem nodupKeys_nil : NodupKeys ([] : List (α × β)) := by
  unfold NodupKeys; simp

theorem mem_map_snd_of_lookup {k : α} {v : β} {l : List (α × β)}
    (h : lookup k l = some v) : v ∈ l.map Prod.snd :=
  List.mem_map.mpr ⟨(k, v), lookup_mem h, rfl⟩

theorem lookup_filter {p : α × β → Bool} {k : α} (l : List (α × β))
    (hp : ∀ v, p (k, v) = true) : lookup k (l.filter p) = lookup k l := by
  induction l with
  | nil => rfl
  | cons q rest ih =>
    cases q with
    | mk a b =>
      by_cases hak : a = k
      · subst hak
        rw [List.filter_cons, hp b]
        simp [lookup, ih]
      · rw [List.filter_cons]
        by_cases hq : p (a, b) = true
        · simp only [hq, if_true]
          rw [lookup_cons, if_neg hak, ih, lookup_cons, if_neg hak]
        · simp only [hq, if_false, Bool.false_eq_true]
          rw [ih, lookup_cons, if_neg hak]

end AssocMap

/-- Python's built-in `round(x)`: round half to even (banker's rounding),
returning an integer. -/
def pythonRound (x : ℚ) : ℤ :=
  if x - ⌊x⌋ < 1/2 then ⌊x⌋
  else if 1/2 < x - ⌊x⌋ then ⌊x⌋ + 1
  else if ⌊x⌋ % 2 = 0 then ⌊x⌋ else ⌊x⌋ + 1

/-- Python's `round(x, 4)`: round to 4 decimal places, half to even. -/
def pythonRound4 (x : ℚ) : ℚ :=
  (pythonRound (x * 10000) : ℚ) / 10000

example : pythonRound (1/2) = 0 := by norm_num [pythonRound]
example : pythonRound (3/2) = 2 := by norm_num [pythonRound]
example : pythonRound (-1/2) = 0 := by norm_num [pythonRound]
example : pythonRound 500 = 500 := by norm_num [pythonRound]

/-!
MultiplierManager — `src/backend/app/engine/multiplier_manager.py`.
The in-memory caches (`_base_multipliers`, `_symbol_overrides`,
`_symbol_sources`) are the read path for every resolution; the SQLite
session writes mirror the cache (upsert/delete of the same key/value) and
are not separately modelled here, the reads under verification never
consult them.
-/

/-- In-memory state of `MultiplierManager.__init__` (lines 28–37). -/
structure MultiplierState where
  base_multipliers : List (String × ℚ)
  symbol_overrides : List ((String × String) × ℚ)
  symbol_sources : List ((String × String) × String)

namespace MultiplierManager

/-- Fresh manager: all three caches empty. -/
def initState : MultiplierState := ⟨[], [], []⟩

/-- Lines 61–69: symbol override if present, else the follower's base
multiplier, else `1.0`. -/
def get_effective (st : MultiplierState) (follower_id symbol : String) : ℚ :=
  match AssocMap.lookup (follower_id, symbol) st.symbol_overrides with
  | some m => m
  | none => (AssocMap.lookup follower_id st.base_multipliers).getD 1

/-- Lines 71–76: source of the effective multiplier, `"base"` when no
symbol-level source is recorded. -/
def get_source (st : MultiplierState) (follower_id symbol : String) : String :=
  (AssocMap.lookup (follower_id, symbol) st.symbol_sources).getD "base"

/-- Lines 78–80: `set_base` updates only the in-memory base multiplier. -/
def set_base (st : MultiplierState) (follower_id : String) (multiplier : ℚ) :
    MultiplierState :=
  { st with
    base_multipliers := AssocMap.insert follower_id multiplier st.base_multipliers }

/-- Lines 82–123: `set_symbol_override` upserts the multiplier and its
source for the `(follower_id, symbol)` key (cache and mirrored DB row). -/
def set_symbol_override (st : MultiplierState) (follower_id symbol : String)
    (multiplier : ℚ) (source : String) : MultiplierState :=
  { st with
    symbol_overrides :=
      AssocMap.insert (follower_id, symbol) multiplier st.symbol_overrides
    symbol_sources :=
      AssocMap.insert (follower_id, symbol) source st.symbol_sources }

/-- Lines 125–140: `set_auto_inferred` is a no-op when the recorded source
is `"user_override"`; otherwise it delegates to `set_symbol_override` with
source `"auto_inferred"`. -/
def set_auto_inferred (st : MultiplierState) (follower_id symbol : String)
    (multiplier : ℚ) : MultiplierState :=
  if AssocMap.lookup (follower_id, symbol) st.symbol_sources
      = some "user_override" then st
  else set_symbol_override st follower_id symbol multiplier "auto_inferred"

/-- Lines 142–159: `remove_symbol_override` pops the key from both
symbol-level caches (and deletes the mirrored DB row). -/
def remove_symbol_override (st : MultiplierState) (follower_id symbol : String) :
    MultiplierState :=
  { st with
    symbol_overrides := AssocMap.erase (follower_id, symbol) st.symbol_overrides
    symbol_sources := AssocMap.erase (follower_id, symbol) st.symbol_sources }

/-- Lines 161–167: `remove_follower` drops the base multiplier and every
symbol-level entry of the follower. -/
def remove_follower (st : MultiplierState) (follower_id : String) :
    MultiplierState :=
  { base_multipliers := AssocMap.erase follower_id st.base_multipliers
    symbol_overrides :=
      st.symbol_overrides.filter (fun p => p.1.1 ≠ follower_id)
    symbol_sources :=
      st.symbol_sources.filter (fun p => p.1.1 ≠ follower_id) }

/-- The manager's mutating calls, as fired by the API layer and the
engine (`multipliers.py`, `reconcile.py`, `position_tracker.py`). -/
inductive Op
  | setBase (follower_id : String) (multiplier : ℚ)
  | setSymbolOverride (follower_id symbol : String) (multiplier : ℚ) (source : String)
  | setAutoInferred (follower_id symbol : String) (multiplier : ℚ)
  | removeSymbolOverride (follower_id symbol : String)
  | removeFollower (follower_id : String)

/-- Interpretation of one mutating call on the manager state. -/
def applyOp (st : MultiplierState) : Op → MultiplierState
  | .setBase f m => set_base st f m
  | .setSymbolOverride f s m src => set_symbol_override st f s m src
  | .setAutoInferred f s m => set_auto_inferred st f s m
  | .removeSymbolOverride f s => remove_symbol_override st f s
  | .removeFollower f => remove_follower st f

/-- Interpretation of a call sequence, first call first. -/
def applyOps (st : MultiplierState) : List Op → MultiplierState
  | [] => st
  | op :: rest => applyOps (applyOp st op) rest

/-- An op explicitly directed at the `(f, s)` override by the user:
a fresh `set_symbol_override`, its removal, or removal of the whole
follower. Everything else — including `set_auto_inferred` on the very
same key — must leave a `user_override` in place. -/
def Op.removesOverride (f s : String) : Op → Prop
  | .setSymbolOverride f' s' _ _ => f' = f ∧ s' = s
  | .removeSymbolOverride f' s' => f' = f ∧ s' = s
  | .removeFollower f' => f' = f
  | _ => False

theorem user_override_preserved_one (st : MultiplierState) (f s : String)
    (op : Op) (hop : ¬ op.removesOverride f s)
    (hsrc : AssocMap.lookup (f, s) st.symbol_sources = some "user_override") :
    AssocMap.lookup (f, s) (applyOp st op).symbol_overrides
        = AssocMap.lookup (f, s) st.symbol_overrides ∧
      AssocMap.lookup (f, s) (applyOp st op).symbol_sources
        = some "user_override" := by
  cases op with
  | setBase f' m =>
    exact ⟨rfl, hsrc⟩
  | setSymbolOverride f' s' m src =>
    have hne : (f, s) ≠ (f', s') := by
      intro hc
      rw [Prod.mk.injEq] at hc
      exact hop ⟨hc.1.symm, hc.2.symm⟩
    constructor
    · exact AssocMap.lookup_insert_ne _ _ _ _ hne
    · show AssocMap.lookup (f, s) (AssocMap.insert (f', s') src st.symbol_sources)
          = some "user_override"
      rw [AssocMap.lookup_insert_ne _ _ _ _ hne, hsrc]
  | setAutoInferred f' s' m =>
    show AssocMap.lookup (f, s) (set_auto_inferred st f' s' m).symbol_overrides
          = _ ∧
        AssocMap.lookup (f, s) (set_auto_inferred st f' s' m).symbol_sources
          = some "user_override"
    rw [set_auto_inferred]
    by_cases hsrc' : AssocMap.lookup (f', s') st.symbol_sources
        = some "user_override"
    · rw [if_pos hsrc']
      exact ⟨rfl, hsrc⟩
    · rw [if_neg hsrc']
      have hk : (f, s) ≠ (f', s') := by
        intro hc
        rw [Prod.mk.injEq] at hc
        exact hsrc' (by rw [← hc.1, ← hc.2]; exact hsrc)
      constructor
      · exact AssocMap.lookup_insert_ne _ _ _ _ hk
      · show AssocMap.lookup (f, s)
            (AssocMap.insert (f', s') "auto_inferred" st.symbol_sources)
            = some "user_override"
        rw [AssocMap.lookup_insert_ne _ _ _ _ hk, hsrc]
  | removeSymbolOverride f' s' =>
    have hne : (f, s) ≠ (f', s') := by
      intro hc
      rw [Prod.mk.injEq] at hc
      exact hop ⟨hc.1.symm, hc.2.symm⟩
    constructor
    · exact AssocMap.lookup_erase_ne _ _ _ hne
    · show AssocMap.lookup (f, s) (AssocMap.erase (f', s') st.symbol_sources)
          = some "user_override"
      rw [AssocMap.lookup_erase_ne _ _ _ hne, hsrc]
  | removeFollower f' =>
    have hne : f ≠ f' := by
      intro hc
      exact hop hc.symm
    constructor
    · exact AssocMap.lookup_filter st.symbol_overrides (fun v => by simp [hne])
    · show AssocMap.lookup (f, s)
          (st.symbol_sources.filter (fun p => p.1.1 ≠ f'))
          = some "user_override"
      rw [AssocMap.lookup_filter st.symbol_sources (fun v => by simp [hne]), hsrc]

theorem user_override_preserved (f s : String) (v : ℚ) (ops : List Op) :
    ∀ st : MultiplierState, (∀ op ∈ ops, ¬ op.removesOverride f s) →
      AssocMap.lookup (f, s) st.symbol_overrides = some v →
      AssocMap.lookup (f, s) st.symbol_sources = some "user_override" →
      AssocMap.lookup (f, s) (applyOps st ops).symbol_overrides = some v ∧
        AssocMap.lookup (f, s) (applyOps st ops).symbol_sources
          = some "user_override" := by
  induction ops with
  | nil => intro st _ h1 h2; exact ⟨h1, h2⟩
  | cons op rest ih =>
    intro st hops h1 h2
    have hop : ¬ op.removesOverride f s := hops op (List.mem_cons_self op rest)
    have hstep := user_override_preserved_one st f s op hop h2
    exact ih (applyOp st op)
      (fun o ho => hops o (List.mem_cons_of_mem op ho))
      (hstep.1.trans h1) hstep.2

end MultiplierManager

/-- C3: for every factor > 0, after
`set_symbol_override(f, s, factor, "user_override")` the effective
multiplier for `(f, s)` is `factor` and its source `"user_override"`, and
they stay that way across any sequence of manager calls that does not
explicitly set or remove the `(f, s)` override (in particular across any
`set_auto_inferred` call, which is a no-op on a `user_override` entry);
a subsequent `set_auto_inferred(f, s, m)` leaves the whole state
literally unchanged for every `m`. -/
theorem claim_C3_user_override_wins (st : MultiplierState) (f s : String)
    (factor : ℚ) (hpos : 0 < factor) (ops : List MultiplierManager.Op)
    (hops : ∀ op ∈ ops, ¬ op.removesOverride f s) :
    MultiplierManager.get_effective
        (MultiplierManager.applyOps
          (MultiplierManager.set_symbol_override st f s factor "user_override")
          ops) f s = factor ∧
      MultiplierManager.get_source
        (MultiplierManager.applyOps
          (MultiplierManager.set_symbol_override st f s factor "user_override")
          ops) f s = "user_override" ∧
      ∀ m : ℚ,
        MultiplierManager.set_auto_inferred
            (MultiplierManager.set_symbol_override st f s factor "user_override")
            f s m
          = MultiplierManager.set_symbol_override st f s factor "user_override" := by
  have hover : AssocMap.lookup (f, s)
      (MultiplierManager.set_symbol_override st f s factor
        "user_override").symbol_overrides = some factor :=
    AssocMap.lookup_insert_self _ _ _
  have hsrc : AssocMap.lookup (f, s)
      (MultiplierManager.set_symbol_override st f s factor
        "user_override").symbol_sources = some "user_override" :=
    AssocMap.lookup_insert_self _ _ _
  have h := MultiplierManager.user_override_preserved f s factor ops
    (MultiplierManager.set_symbol_override st f s factor "user_override")
    hops hover hsrc
  refine ⟨?_, ?_, ?_⟩
  · rw [MultiplierManager.get_effective, h.1]
  · rw [MultiplierManager.get_source, h.2]
    rfl
  · intro m
    rw [MultiplierManager.set_auto_inferred, if_pos hsrc]

/-- C3 witness: concrete run with `factor = 1/2` on a fresh manager,
followed by one `set_auto_inferred` with a different value `3/4`. -/
theorem claim_C3_user_override_wins_witness :
    MultiplierManager.get_effective
        (MultiplierManager.applyOps
          (MultiplierManager.set_symbol_override MultiplierManager.initState
            "F1" "AAPL" (1/2) "user_override")
          [MultiplierManager.Op.setAutoInferred "F1" "AAPL" (3/4)])
        "F1" "AAPL" = 1/2 ∧
      MultiplierManager.get_source
        (MultiplierManager.applyOps
          (MultiplierManager.set_symbol_override MultiplierManager.initState
            "F1" "AAPL" (1/2) "user_override")
          [MultiplierManager.Op.setAutoInferred "F1" "AAPL" (3/4)])
        "F1" "AAPL" = "user_override" := by
  have h := claim_C3_user_override_wins MultiplierManager.initState "F1" "AAPL"
    (1/2) (by norm_num)
    [MultiplierManager.Op.setAutoInferred "F1" "AAPL" (3/4)]
    (by
      intro op hop
      rcases List.mem_singleton.mp hop with rfl
      simp [MultiplierManager.Op.removesOverride])
  exact ⟨h.1, h.2.1⟩

/-!
OrderReplicator — `src/backend/app/engine/order_replicator.py`.
-/

namespace OrderReplicator

/-- Lines 48–51: `_order_map : master_order_id → {follower_id:
follower_order_id}` and `_reverse_map : follower_order_id →
master_order_id`. -/
structure OrderMaps where
  order_map : List (ℤ × List (String × ℤ))
  reverse_map : List (ℤ × ℤ)

/-- Empty maps of `__init__`. -/
def OrderMaps.empty : OrderMaps := ⟨[], []⟩

/-- Lines 397–399: `get_follower_order_ids` returns the follower→order-id
dict for a master order (empty when unmapped). -/
def get_follower_order_ids (s : OrderMaps) (master_order_id : ℤ) :
    List (String × ℤ) :=
  (AssocMap.lookup master_order_id s.order_map).getD []

/-- Lines 401–403: `get_master_order_id` reverse lookup. -/
def get_master_order_id (s : OrderMaps) (follower_order_id : ℤ) : Option ℤ :=
  AssocMap.lookup follower_order_id s.reverse_map

/-- Lines 139–143 of `replicate_order`: on success record
`_order_map[master_order_id][follower_id] = follower_order_id` and
`_reverse_map[follower_order_id] = master_order_id`. -/
def record_mapping (s : OrderMaps) (master_order_id : ℤ) (follower_id : String)
    (follower_order_id : ℤ) : OrderMaps :=
  { order_map :=
      AssocMap.insert master_order_id
        (AssocMap.insert follower_id follower_order_id
          (get_follower_order_ids s master_order_id))
        s.order_map
    reverse_map :=
      AssocMap.insert follower_order_id master_order_id s.reverse_map }

/-- Lines 405–409: `cleanup_order` pops the forward entry and every
reverse entry for its follower order ids. -/
def cleanup_order (s : OrderMaps) (master_order_id : ℤ) : OrderMaps :=
  { order_map := AssocMap.erase master_order_id s.order_map
    reverse_map :=
      (get_follower_order_ids s master_order_id).foldl
        (fun r p => AssocMap.erase p.2 r) s.reverse_map }

/-- Lines 53–69: `_scale_quantity` — scale by the effective multiplier,
round to the nearest int (banker's rounding), clamp negatives to 0
("0 means skip"). -/
def scale_quantity (mst : MultiplierState) (quantity : ℤ)
    (follower_id symbol : String) : ℤ :=
  max (pythonRound (quantity * MultiplierManager.get_effective mst follower_id symbol)) 0

/-- Outcome of the broker submission awaited inside `replicate_order`
(lines 114–180): the `OrderResult` cases the code branches on
(`is_rejected`, `is_success` with an order id, any other status), or an
exception escaping the call. -/
inductive SubmitOutcome
  | rejected (message : String)
  | success (order_id : ℤ)
  | unexpected (message : String)
  | raised (message : String)

/-- What one `replicate_order` call did: its return value, the quantity
actually submitted to the follower (`none` when no broker call was made),
the order maps afterwards, and the `(level, message)` alerts broadcast. -/
structure ReplicateResult where
  returned : Option ℤ
  submitted_qty : Option ℤ
  maps : OrderMaps
  alerts : List (String × String)

/-- Lines 75–198: `replicate_order(master_order, follower_id,
master_order_id)`. `connected` is `_get_follower(follower_id) is not None`;
`outcome` is what the broker interaction would produce if reached. -/
def replicate_order (connected : Bool) (mst : MultiplierState) (maps : OrderMaps)
    (master_quantity : ℤ) (follower_id symbol : String) (master_order_id : ℤ)
    (outcome : SubmitOutcome) : ReplicateResult :=
  if ¬ connected then ⟨none, none, maps, []⟩
  else
    let scaled_qty := scale_quantity mst master_quantity follower_id symbol
    if scaled_qty = 0 then ⟨none, none, maps, []⟩
    else
      match outcome with
      | .rejected msg =>
          ⟨none, some scaled_qty, maps, [("error", "Order rejected: " ++ msg)]⟩
      | .success oid =>
          ⟨some oid, some scaled_qty,
            record_mapping maps master_order_id follower_id oid, []⟩
      | .unexpected msg =>
          ⟨none, some scaled_qty, maps,
            [("warn", "Unexpected order status: " ++ msg)]⟩
      | .raised msg =>
          ⟨none, some scaled_qty, maps,
            [("error", "Order replication failed: " ++ msg)]⟩

end OrderReplicator

/-!
ShortSaleManager quantity policy — `src/backend/app/engine/short_sale_manager.py`.
-/

namespace ShortSaleManager

/-- Line 112 of `handle_short_sale`:
`required_qty = max(round(master_order.quantity * multiplier), 1)`. -/
def handle_short_sale_required_qty (mst : MultiplierState) (quantity : ℤ)
    (follower_id symbol : String) : ℤ :=
  max (pythonRound (quantity * MultiplierManager.get_effective mst follower_id symbol)) 1

end ShortSaleManager

/-- C4: whenever `replicate_order` actually submits to a follower, the
submitted quantity is `round(master_quantity * effective_multiplier)`
with Python's banker's rounding, where the effective multiplier is the
`(follower, symbol)` override if present, else the follower's base
multiplier, else `1.0`; concretely, master quantity `1000` against a
base multiplier of `0.5` is replicated as `500` shares. -/
theorem claim_C4_quantity_scaling (connected : Bool) (mst : MultiplierState)
    (maps : OrderReplicator.OrderMaps) (q : ℤ) (f s : String) (mid : ℤ)
    (outcome : OrderReplicator.SubmitOutcome) (v : ℤ)
    (hsub : (OrderReplicator.replicate_order connected mst maps q f s mid
        outcome).submitted_qty = some v) :
    v = pythonRound (q * MultiplierManager.get_effective mst f s) ∧
      (∀ ov, AssocMap.lookup (f, s) mst.symbol_overrides = some ov →
        MultiplierManager.get_effective mst f s = ov) ∧
      (AssocMap.lookup (f, s) mst.symbol_overrides = none →
        ∀ b, AssocMap.lookup f mst.base_multipliers = some b →
          MultiplierManager.get_effective mst f s = b) ∧
      (AssocMap.lookup (f, s) mst.symbol_overrides = none →
        AssocMap.lookup f mst.base_multipliers = none →
          MultiplierManager.get_effective mst f s = 1) ∧
      OrderReplicator.scale_quantity ⟨[("F1", 1/2)], [], []⟩ 1000 "F1" "XYZ"
        = 500 := by
  refine ⟨?_, ?_, ?_, ?_, ?_⟩
  · rw [OrderReplicator.replicate_order] at hsub
    by_cases hc : connected = true
    · rw [hc] at hsub
      simp only [Bool.not_true, if_neg (by simp : ¬ (false = true))] at hsub
      by_cases hz : OrderReplicator.scale_quantity mst q f s = 0
      · rw [if_pos hz] at hsub
        simp at hsub
      · rw [if_neg hz] at hsub
        have hv : v = OrderReplicator.scale_quantity mst q f s := by
          cases outcome <;> simpa using hsub.symm
        rw [hv]
        rw [OrderReplicator.scale_quantity] at hz ⊢
        rcases le_or_lt 0 (pythonRound (q * MultiplierManager.get_effective mst f s)) with hge | hlt
        · exact max_eq_left hge
        · exfalso
          exact hz (max_eq_right hlt.le)
    · have : connected = false := by
        cases connected
        · rfl
        · exact absurd rfl hc
      rw [this] at hsub
      simp at hsub
  · intro ov hov
    simp [MultiplierManager.get_effective, hov]
  · intro hnone b hb
    simp [MultiplierManager.get_effective, hnone, hb]
  · intro hnone hbnone
    simp [MultiplierManager.get_effective, hnone, hbnone]
  · show max (pythonRound ((1000 : ℤ) *
        MultiplierManager.get_effective ⟨[("F1", 1/2)], [], []⟩ "F1" "XYZ")) 0 = 500
    have : MultiplierManager.get_effective ⟨[("F1", 1/2)], [], []⟩ "F1" "XYZ"
        = 1/2 := by
      simp [MultiplierManager.get_effective, AssocMap.lookup]
    rw [this]
    norm_num [pythonRound]

/-- C4 witness: a connected follower with base multiplier `0.5`, a
master order for `1000` shares, and a successful broker submission. -/
theorem claim_C4_quantity_scaling_witness :
    (OrderReplicator.replicate_order true ⟨[("F1", 1/2)], [], []⟩
        OrderReplicator.OrderMaps.empty 1000 "F1" "XYZ" 7
        (OrderReplicator.SubmitOutcome.success 42)).submitted_qty = some 500 ∧
      (500 : ℤ) = pythonRound (1000 *
        MultiplierManager.get_effective ⟨[("F1", 1/2)], [], []⟩ "F1" "XYZ") := by
  have hsub : (OrderReplicator.replicate_order true ⟨[("F1", 1/2)], [], []⟩
      OrderReplicator.OrderMaps.empty 1000 "F1" "XYZ" 7
      (OrderReplicator.SubmitOutcome.success 42)).submitted_qty = some 500 := by
    have heff : MultiplierManager.get_effective ⟨[("F1", 1/2)], [], []⟩ "F1" "XYZ"
        = 1/2 := by
      simp [MultiplierManager.get_effective, AssocMap.lookup]
    have hsq : OrderReplicator.scale_quantity ⟨[("F1", 1/2)], [], []⟩ 1000 "F1" "XYZ"
        = 500 := by
      rw [OrderReplicator.scale_quantity, heff]
      norm_num [pythonRound]
    rw [OrderReplicator.replicate_order]
    simp only [Bool.not_true, if_neg (by simp : ¬ (false = true)), hsq]
    norm_num
  exact ⟨hsub, (claim_C4_quantity_scaling true ⟨[("F1", 1/2)], [], []⟩
    OrderReplicator.OrderMaps.empty 1000 "F1" "XYZ" 7
    (OrderReplicator.SubmitOutcome.success 42) 500 hsub).1.symm ▸ rfl⟩

/-- C6: when the broker rejects the submission or the submission raises,
`replicate_order` returns `None`, broadcasts an alert, and leaves the
order maps untouched — no forward or reverse mapping entry is created
(and the function never touches the ActionQueue, so nothing is queued). -/
theorem claim_C6_rejection_is_terminal (mst : MultiplierState)
    (maps : OrderReplicator.OrderMaps) (q : ℤ) (f s : String) (mid : ℤ)
    (msg : String)
    (hsq : OrderReplicator.scale_quantity mst q f s ≠ 0) :
    (OrderReplicator.replicate_order true mst maps q f s mid
        (.rejected msg)).returned = none ∧
      (OrderReplicator.replicate_order true mst maps q f s mid
        (.rejected msg)).maps = maps ∧
      (OrderReplicator.replicate_order true mst maps q f s mid
        (.rejected msg)).alerts = [("error", "Order rejected: " ++ msg)] ∧
      (OrderReplicator.replicate_order true mst maps q f s mid
        (.raised msg)).returned = none ∧
      (OrderReplicator.replicate_order true mst maps q f s mid
        (.raised msg)).maps = maps ∧
      (OrderReplicator.replicate_order true mst maps q f s mid
        (.raised msg)).alerts = [("error", "Order replication failed: " ++ msg)] := by
  rw [OrderReplicator.replicate_order, OrderReplicator.replicate_order]
  simp only [Bool.not_true, if_neg (by simp : ¬ (false = true)), if_neg hsq]
  exact ⟨rfl, rfl, rfl, rfl, rfl, rfl⟩

/-- C6 witness: base multiplier `0.5` and master quantity `1000` scale to
`500 ≠ 0`, so the submission path is reached. -/
theorem claim_C6_rejection_is_terminal_witness :
    (OrderReplicator.replicate_order true ⟨[("F1", 1/2)], [], []⟩
        OrderReplicator.OrderMaps.empty 1000 "F1" "XYZ" 7
        (.rejected "no buying power")).returned = none ∧
      (OrderReplicator.replicate_order true ⟨[("F1", 1/2)], [], []⟩
        OrderReplicator.OrderMaps.empty 1000 "F1" "XYZ" 7
        (.rejected "no buying power")).maps = OrderReplicator.OrderMaps.empty := by
  have hsq : OrderReplicator.scale_quantity ⟨[("F1", 1/2)], [], []⟩ 1000 "F1" "XYZ"
      ≠ 0 := by
    have heff : MultiplierManager.get_effective ⟨[("F1", 1/2)], [], []⟩ "F1" "XYZ"
        = 1/2 := by
      simp [MultiplierManager.get_effective, AssocMap.lookup]
    rw [OrderReplicator.scale_quantity, heff]
    norm_num [pythonRound]
  have h := claim_C6_rejection_is_terminal ⟨[("F1", 1/2)], [], []⟩
    OrderReplicator.OrderMaps.empty 1000 "F1" "XYZ" 7 "no buying power" hsq
  exact ⟨h.1, h.2.1⟩

/-- C8: the zero-quantity floor policy differs across the two paths.
`replicate_order` treats a scaled quantity of `0` as "skip": it returns
`None` without any broker call, alert, or map change; `handle_short_sale`
clamps its scaled required quantity to a minimum of `1`, so a short-sale
task always requests at least one share. -/
theorem claim_C8_floor_policy_differs (connected : Bool) (mst : MultiplierState)
    (maps : OrderReplicator.OrderMaps) (q : ℤ) (f s : String) (mid : ℤ)
    (outcome : OrderReplicator.SubmitOutcome)
    (hzero : OrderReplicator.scale_quantity mst q f s = 0) :
    OrderReplicator.replicate_order connected mst maps q f s mid outcome
        = ⟨none, none, maps, []⟩ ∧
      (∀ (mst' : MultiplierState) (q' : ℤ) (f' s' : String),
        1 ≤ ShortSaleManager.handle_short_sale_required_qty mst' q' f' s') ∧
      ShortSaleManager.handle_short_sale_required_qty mst q f s = 1 := by
  refine ⟨?_, ?_, ?_⟩
  · rw [OrderReplicator.replicate_order]
    by_cases hc : connected = true
    · rw [hc]
      simp only [Bool.not_true, if_neg (by simp : ¬ (false = true)), if_pos hzero]
      simp
    · have : connected = false := by
        cases connected
        · rfl
        · exact absurd rfl hc
      rw [this]
      simp
  · intro mst' q' f' s'
    exact le_max_right _ 1
  · rw [OrderReplicator.scale_quantity] at hzero
    rw [ShortSaleManager.handle_short_sale_required_qty]
    have hle : pythonRound (q * MultiplierManager.get_effective mst f s) ≤ 0 := by
      by_contra hlt
      push_neg at hlt
      rw [max_eq_left hlt.le] at hzero
      omega
    rw [max_eq_right (hle.trans (by norm_num))]

/-- C8 witness: master quantity `1` with base multiplier `0.2` scales to
`round(0.2) = 0`; the order path skips while the short-sale path asks for
one share. -/
theorem claim_C8_floor_policy_differs_witness :
    OrderReplicator.scale_quantity ⟨[("F1", 1/5)], [], []⟩ 1 "F1" "XYZ" = 0 ∧
      OrderReplicator.replicate_order true ⟨[("F1", 1/5)], [], []⟩
          OrderReplicator.OrderMaps.empty 1 "F1" "XYZ" 7
          (OrderReplicator.SubmitOutcome.success 42)
        = ⟨none, none, OrderReplicator.OrderMaps.empty, []⟩ ∧
      ShortSaleManager.handle_short_sale_required_qty ⟨[("F1", 1/5)], [], []⟩
          1 "F1" "XYZ" = 1 := by
  have heff : MultiplierManager.get_effective ⟨[("F1", 1/5)], [], []⟩ "F1" "XYZ"
      = 1/5 := by
    simp [MultiplierManager.get_effective, AssocMap.lookup]
  have hzero : OrderReplicator.scale_quantity ⟨[("F1", 1/5)], [], []⟩ 1 "F1" "XYZ"
      = 0 := by
    rw [OrderReplicator.scale_quantity, heff]
    norm_num [pythonRound]
  have h := claim_C8_floor_policy_differs true ⟨[("F1", 1/5)], [], []⟩
    OrderReplicator.OrderMaps.empty 1 "F1" "XYZ" 7
    (OrderReplicator.SubmitOutcome.success 42) hzero
  exact ⟨hzero, h.1, h.2.2⟩

namespace OrderReplicator

/-- The bidirectional-mapping invariant of C7: forward and reverse maps
are exact inverses on every currently-mapped pair, and each per-master
follower dict has Python-dict key uniqueness. -/
def MapsInv (s : OrderMaps) : Prop :=
  (∀ m f o, AssocMap.lookup f (get_follower_order_ids s m) = some o →
      get_master_order_id s o = some m) ∧
    (∀ o m, get_master_order_id s o = some m →
      ∃ f, AssocMap.lookup f (get_follower_order_ids s m) = some o) ∧
    (∀ m inner, AssocMap.lookup m s.order_map = some inner →
      AssocMap.NodupKeys inner)

theorem mapsInv_empty : MapsInv OrderMaps.empty := by
  refine ⟨?_, ?_, ?_⟩
  · intro m f o h
    simp [get_follower_order_ids, OrderMaps.empty, AssocMap.lookup] at h
  · intro o m h
    simp [get_master_order_id, OrderMaps.empty, AssocMap.lookup] at h
  · intro m inner h
    simp [OrderMaps.empty, AssocMap.lookup] at h

theorem nodupKeys_follower_ids {s : OrderMaps} (hinv : MapsInv s) (m : ℤ) :
    AssocMap.NodupKeys (get_follower_order_ids s m) := by
  rw [get_follower_order_ids]
  cases hl : AssocMap.lookup m s.order_map with
  | none => exact AssocMap.nodupKeys_nil
  | some inner => exact hinv.2.2 m inner hl

theorem record_mapping_preserves (s : OrderMaps) (mid : ℤ) (fid : String)
    (oid : ℤ) (hinv : MapsInv s)
    (hfresh : get_master_order_id s oid = none)
    (hslot : AssocMap.lookup fid (get_follower_order_ids s mid) = none) :
    MapsInv (record_mapping s mid fid oid) := by
  obtain ⟨h1, h2, h3⟩ := hinv
  have hids : ∀ m, m ≠ mid →
      get_follower_order_ids (record_mapping s mid fid oid) m
        = get_follower_order_ids s m := by
    intro m hm
    rw [get_follower_order_ids, record_mapping]
    rw [show AssocMap.lookup m
        (AssocMap.insert mid
          (AssocMap.insert fid oid (get_follower_order_ids s mid)) s.order_map)
      = AssocMap.lookup m s.order_map from AssocMap.lookup_insert_ne _ _ _ _ hm]
    rfl
  have hids' : get_follower_order_ids (record_mapping s mid fid oid) mid
      = AssocMap.insert fid oid (get_follower_order_ids s mid) := by
    rw [get_follower_order_ids, record_mapping]
    rw [AssocMap.lookup_insert_self]
    rfl
  refine ⟨?_, ?_, ?_⟩
  · intro m f o hlk
    by_cases hm : m = mid
    · subst hm
      rw [hids'] at hlk
      by_cases hf : f = fid
      · subst hf
        rw [AssocMap.lookup_insert_self] at hlk
        injection hlk with ho
        subst ho
        exact AssocMap.lookup_insert_self _ _ _
      · rw [AssocMap.lookup_insert_ne _ _ _ _ hf] at hlk
        have hrev := h1 m f o hlk
        have hne : o ≠ oid := by
          intro hc
          rw [hc, hfresh] at hrev
          cases hrev
        show AssocMap.lookup o (AssocMap.insert oid m s.reverse_map) = some m
        rw [AssocMap.lookup_insert_ne _ _ _ _ hne]
        exact hrev
    · rw [hids m hm] at hlk
      have hrev := h1 m f o hlk
      have hne : o ≠ oid := by
        intro hc
        rw [hc, hfresh] at hrev
        cases hrev
      show AssocMap.lookup o (AssocMap.insert oid mid s.reverse_map) = some m
      rw [AssocMap.lookup_insert_ne _ _ _ _ hne]
      exact hrev
  · intro o m hrev
    by_cases ho : o = oid
    · rw [ho] at hrev ⊢
      have hmmid : m = mid := by
        have h' := hrev
        rw [show get_master_order_id (record_mapping s mid fid oid) oid
            = AssocMap.lookup oid (AssocMap.insert oid mid s.reverse_map) from rfl,
          AssocMap.lookup_insert_self] at h'
        injection h' with h''
        exact h''.symm
      subst hmmid
      refine ⟨fid, ?_⟩
      rw [hids', AssocMap.lookup_insert_self]
    · rw [show get_master_order_id (record_mapping s mid fid oid) o
          = AssocMap.lookup o (AssocMap.insert oid mid s.reverse_map) from rfl,
        AssocMap.lookup_insert_ne _ _ _ _ ho] at hrev
      obtain ⟨f, hf⟩ := h2 o m hrev
      by_cases hm : m = mid
      · subst hm
        have hffid : f ≠ fid := by
          intro hc
          rw [hc, hslot] at hf
          cases hf
        refine ⟨f, ?_⟩
        rw [hids', AssocMap.lookup_insert_ne _ _ _ _ hffid]
        exact hf
      · refine ⟨f, ?_⟩
        rw [hids m hm]
        exact hf
  · intro m inner hlk
    rw [record_mapping] at hlk
    by_cases hm : m = mid
    · subst hm
      rw [show AssocMap.lookup m
          (AssocMap.insert m
            (AssocMap.insert fid oid (get_follower_order_ids s m)) s.order_map)
        = some (AssocMap.insert fid oid (get_follower_order_ids s m)) from
          AssocMap.lookup_insert_self _ _ _] at hlk
      cases hlk
      exact AssocMap.nodupKeys_insert _ _ (nodupKeys_follower_ids ⟨h1, h2, h3⟩ m)
    · rw [show AssocMap.lookup m
          (AssocMap.insert mid
            (AssocMap.insert fid oid (get_follower_order_ids s mid)) s.order_map)
        = AssocMap.lookup m s.order_map from
          AssocMap.lookup_insert_ne _ _ _ _ hm] at hlk
      exact h3 m inner hlk

theorem lookup_foldl_erase (inner : List (String × ℤ)) (r : List (ℤ × ℤ))
    (o : ℤ) :
    AssocMap.lookup o (inner.foldl (fun acc p => AssocMap.erase p.2 acc) r)
      = if o ∈ inner.map Prod.snd then none else AssocMap.lookup o r := by
  induction inner generalizing r with
  | nil => simp
  | cons p rest ih =>
    rw [List.foldl_cons, ih]
    by_cases ho : o = p.2
    · subst ho
      by_cases hrest : p.2 ∈ rest.map Prod.snd
      · simp [hrest]
      · simp [hrest]
    · by_cases hrest : o ∈ rest.map Prod.snd
      · simp [hrest]
      · simp only [hrest, if_false]
        rw [AssocMap.lookup_erase_ne _ _ _ ho]
        simp [ho, hrest]

theorem cleanup_order_removes (s : OrderMaps) (mid : ℤ) (hinv : MapsInv s) :
    MapsInv (cleanup_order s mid) ∧
      get_follower_order_ids (cleanup_order s mid) mid = [] ∧
      ∀ o, get_master_order_id (cleanup_order s mid) o ≠ some mid := by
  obtain ⟨h1, h2, h3⟩ := hinv
  have hA : ∀ m, m ≠ mid →
      get_follower_order_ids (cleanup_order s mid) m
        = get_follower_order_ids s m := by
    intro m hm
    rw [get_follower_order_ids, cleanup_order]
    rw [show AssocMap.lookup m (AssocMap.erase mid s.order_map)
        = AssocMap.lookup m s.order_map from AssocMap.lookup_erase_ne _ _ _ hm]
    rfl
  have hB : get_follower_order_ids (cleanup_order s mid) mid = [] := by
    rw [get_follower_order_ids, cleanup_order]
    rw [show AssocMap.lookup mid (AssocMap.erase mid s.order_map) = none from
      AssocMap.lookup_erase_self _ _]
    rfl
  have hC : ∀ o, get_master_order_id (cleanup_order s mid) o
      = if o ∈ (get_follower_order_ids s mid).map Prod.snd then none
        else get_master_order_id s o := by
    intro o
    exact lookup_foldl_erase _ _ _
  have hmem_of_fwd : ∀ o, o ∈ (get_follower_order_ids s mid).map Prod.snd →
      get_master_order_id s o = some mid := by
    intro o ho
    rcases List.mem_map.mp ho with ⟨⟨f0, o0⟩, hp, hpo⟩
    cases hpo
    exact h1 mid f0 o0
      (AssocMap.mem_lookup_of_nodup (nodupKeys_follower_ids ⟨h1, h2, h3⟩ mid) hp)
  refine ⟨⟨?_, ?_, ?_⟩, hB, ?_⟩
  · intro m f o hlk
    by_cases hm : m = mid
    · subst hm
      rw [hB] at hlk
      cases hlk
    · rw [hA m hm] at hlk
      have hrev := h1 m f o hlk
      have hnm : o ∉ (get_follower_order_ids s mid).map Prod.snd := by
        intro hmem
        have := hmem_of_fwd o hmem
        rw [this] at hrev
        injection hrev with h'
        exact hm h'.symm
      rw [hC o, if_neg hnm]
      exact hrev
  · intro o m hrev
    rw [hC o] at hrev
    by_cases hmem : o ∈ (get_follower_order_ids s mid).map Prod.snd
    · rw [if_pos hmem] at hrev
      cases hrev
    · rw [if_neg hmem] at hrev
      obtain ⟨f, hf⟩ := h2 o m hrev
      have hm : m ≠ mid := by
        intro hc
        subst hc
        exact hmem (AssocMap.mem_map_snd_of_lookup hf)
      refine ⟨f, ?_⟩
      rw [hA m hm]
      exact hf
  · intro m inner hlk
    rw [cleanup_order] at hlk
    by_cases hm : m = mid
    · subst hm
      rw [show AssocMap.lookup m (AssocMap.erase m s.order_map) = none from
        AssocMap.lookup_erase_self _ _] at hlk
      cases hlk
    · rw [show AssocMap.lookup m (AssocMap.erase mid s.order_map)
          = AssocMap.lookup m s.order_map from
          AssocMap.lookup_erase_ne _ _ _ hm] at hlk
      exact h3 m inner hlk
  · intro o hc
    rw [hC o] at hc
    by_cases hmem : o ∈ (get_follower_order_ids s mid).map Prod.snd
    · rw [if_pos hmem] at hc
      cases hc
    · rw [if_neg hmem] at hc
      obtain ⟨f, hf⟩ := h2 o mid hc
      exact hmem (AssocMap.mem_map_snd_of_lookup hf)

end OrderReplicator

/-- C7: the order-id maps are exact inverses for every currently-mapped
pair — `MapsInv` states both directions: a forward entry
`get_follower_order_ids(m)[f] = o` has `get_master_order_id(o) = m` and
conversely. The invariant holds for the empty maps, is preserved when
`replicate_order` records a success (for a broker-fresh follower order id
and a follower not yet mapped under that master order), and is preserved
by `cleanup_order`, which removes the forward entry and every reverse
entry together, leaving no dangling half. -/
theorem claim_C7_order_maps_exact_inverses (s : OrderReplicator.OrderMaps)
    (mid : ℤ) (fid : String) (oid : ℤ)
    (hinv : OrderReplicator.MapsInv s)
    (hfresh : OrderReplicator.get_master_order_id s oid = none)
    (hslot : AssocMap.lookup fid (OrderReplicator.get_follower_order_ids s mid)
      = none) :
    OrderReplicator.MapsInv OrderReplicator.OrderMaps.empty ∧
      OrderReplicator.MapsInv (OrderReplicator.record_mapping s mid fid oid) ∧
      OrderReplicator.MapsInv (OrderReplicator.cleanup_order s mid) ∧
      OrderReplicator.get_follower_order_ids
        (OrderReplicator.cleanup_order s mid) mid = [] ∧
      ∀ o, OrderReplicator.get_master_order_id
        (OrderReplicator.cleanup_order s mid) o ≠ some mid := by
  have hc := OrderReplicator.cleanup_order_removes s mid hinv
  exact ⟨OrderReplicator.mapsInv_empty,
    OrderReplicator.record_mapping_preserves s mid fid oid hinv hfresh hslot,
    hc.1, hc.2.1, hc.2.2⟩

/-- C7 witness: record a mapping `(1, "F1") ↦ 10` on the empty maps and
clean it up. -/
theorem claim_C7_order_maps_exact_inverses_witness :
    OrderReplicator.MapsInv
        (OrderReplicator.record_mapping OrderReplicator.OrderMaps.empty 1 "F1" 10) ∧
      ∀ o, OrderReplicator.get_master_order_id
        (OrderReplicator.cleanup_order OrderReplicator.OrderMaps.empty 1) o
          ≠ some 1 := by
  have h := claim_C7_order_maps_exact_inverses OrderReplicator.OrderMaps.empty
    1 "F1" 10 OrderReplicator.mapsInv_empty rfl rfl
  exact ⟨h.2.1, h.2.2.2.2⟩

/-!
ReconciliationClassifier — `src/backend/app/api/reconcile.py`.
-/

namespace Reconcile

/-- Lines 57–80: `_classify_position(master_qty, master_side,
follower_qty, follower_side)` returning `(scenario,
inferred_multiplier)`. `follower_side` is `None` when the follower has no
position in the symbol. -/
def classify_position (master_qty : ℤ) (master_side : String)
    (follower_qty : ℤ) (follower_side : Option String) : String × Option ℚ :=
  if follower_qty = 0 ∨ follower_side = none then ("master_only", none)
  else if follower_side = some master_side
      ∨ (0 < master_qty ∧ 0 < follower_qty)
      ∨ (master_qty < 0 ∧ follower_qty < 0) then
    ("common_same_dir",
      some (pythonRound4 ((|follower_qty| : ℚ) / (|master_qty| : ℚ))))
  else ("common_diff_dir", none)

/-- Lines 148–150 of `get_reconciliation`: `default_action =
"use_inferred" if scenario == "common_same_dir" else "blacklist"`. -/
def default_action (scenario : String) : String :=
  if scenario = "common_same_dir" then "use_inferred" else "blacklist"

end Reconcile

/-- C5: position classification — follower quantity `0` gives
`master_only`; agreeing directions (explicit side match or same sign)
give `common_same_dir` with inferred multiplier
`round(|follower_qty| / |master_qty|, 4)` and default action
`use_inferred`; disagreeing directions give `common_diff_dir` with no
inferred multiplier and default action `blacklist`. Concretely,
master `+1000` long vs follower `+400` long infers `0.4`, and master
`+1000` long vs follower `-200` short is `common_diff_dir`. -/
theorem claim_C5_reconciliation_classification (mq : ℤ) (ms : String) (fq : ℤ)
    (fside : Option String)
    (hfq : fq ≠ 0) (hfs : fside ≠ none) :
    (∀ (mq' : ℤ) (ms' : String) (fs' : Option String),
        Reconcile.classify_position mq' ms' 0 fs' = ("master_only", none)) ∧
      ((fside = some ms ∨ (0 < mq ∧ 0 < fq) ∨ (mq < 0 ∧ fq < 0)) →
        Reconcile.classify_position mq ms fq fside
            = ("common_same_dir",
              some (pythonRound4 ((|fq| : ℚ) / (|mq| : ℚ)))) ∧
          Reconcile.default_action "common_same_dir" = "use_inferred") ∧
      (¬(fside = some ms ∨ (0 < mq ∧ 0 < fq) ∨ (mq < 0 ∧ fq < 0)) →
        Reconcile.classify_position mq ms fq fside = ("common_diff_dir", none) ∧
          Reconcile.default_action "common_diff_dir" = "blacklist") ∧
      Reconcile.classify_position 1000 "LONG" 400 (some "LONG")
        = ("common_same_dir", some (2/5)) ∧
      Reconcile.classify_position 1000 "LONG" (-200) (some "SHORT")
        = ("common_diff_dir", none) := by
  have hguard : ¬(fq = 0 ∨ fside = none) := by
    intro hc
    rcases hc with hc | hc
    · exact hfq hc
    · exact hfs hc
  refine ⟨?_, ?_, ?_, ?_, ?_⟩
  · intro mq' ms' fs'
    rw [Reconcile.classify_position, if_pos (Or.inl rfl)]
  · intro hsame
    constructor
    · rw [Reconcile.classify_position, if_neg hguard, if_pos hsame]
    · rw [Reconcile.default_action, if_pos rfl]
  · intro hdiff
    constructor
    · rw [Reconcile.classify_position, if_neg hguard, if_neg hdiff]
    · rw [Reconcile.default_action, if_neg (by decide)]
  · rw [Reconcile.classify_position,
      if_neg (by simp), if_pos (Or.inl rfl)]
    have : pythonRound4 ((|(400 : ℤ)| : ℚ) / (|(1000 : ℤ)| : ℚ)) = 2/5 := by
      norm_num [pythonRound4, pythonRound]
    rw [this]
  · rw [Reconcile.classify_position]
    rw [if_neg (by simp), if_neg ?hdiff]
    case hdiff =>
      intro hc
      rcases hc with hc | hc | hc
      · rw [Option.some_inj] at hc
        exact absurd hc (by decide)
      · exact absurd hc.2 (by decide)
      · exact absurd hc.1 (by decide)

/-- C5 witness: the spec's two concrete reconciliation rows, obtained by
applying the classification theorem at master `+1000` long vs follower
`+400` long. -/
theorem claim_C5_reconciliation_classification_witness :
    Reconcile.classify_position 1000 "LONG" 400 (some "LONG")
        = ("common_same_dir", some (2/5)) ∧
      Reconcile.classify_position 1000 "LONG" (-200) (some "SHORT")
        = ("common_diff_dir", none) ∧
      Reconcile.classify_position 1000 "LONG" 0 none = ("master_only", none) := by
  have h := claim_C5_reconciliation_classification 1000 "LONG" 400 (some "LONG")
    (by decide) (by simp)
  exact ⟨h.2.2.2.1, h.2.2.2.2, h.1 1000 "LONG" none⟩

/-- Python's `str.upper()` on the ASCII symbol strings the system uses:
uppercase each character. -/
def pyUpper (s : String) : String := ⟨s.data.map Char.toUpper⟩

/-!
BlacklistManager — `src/backend/app/engine/blacklist_manager.py`.
Here the Store matters to the claim, so the state carries both the
in-memory `_blacklist` cache and the persisted `blacklist_entries` rows
`(follower_id, symbol, reason)`.
-/

/-- Cache (`__init__`, line 23) plus the DB rows it mirrors. -/
structure BlacklistState where
  cache : List ((String × String) × String)
  store : List (String × String × String)

namespace BlacklistManager

/-- Fresh manager over an empty database. -/
def initState : BlacklistState := ⟨[], []⟩

/-- Lines 36–38: membership test on `(follower_id, symbol.upper())`. -/
def is_blacklisted (st : BlacklistState) (follower_id symbol : String) : Bool :=
  (AssocMap.lookup (follower_id, pyUpper symbol) st.cache).isSome

/-- Lines 48–73: `add` uppercases the symbol, returns `False` untouched
when the pair is already blacklisted, else writes cache and Store and
returns `True`. -/
def add (st : BlacklistState) (follower_id symbol reason : String) :
    Bool × BlacklistState :=
  let u := pyUpper symbol
  if (AssocMap.lookup (follower_id, u) st.cache).isSome then (false, st)
  else
    (true,
      ⟨AssocMap.insert (follower_id, u) reason st.cache,
        st.store ++ [(follower_id, u, reason)]⟩)

/-- Lines 75–98: `remove` uppercases the symbol, returns `False`
untouched when the pair is absent, else deletes from cache and Store and
returns `True`. -/
def remove (st : BlacklistState) (follower_id symbol : String) :
    Bool × BlacklistState :=
  let u := pyUpper symbol
  if (AssocMap.lookup (follower_id, u) st.cache).isSome then
    (true,
      ⟨AssocMap.erase (follower_id, u) st.cache,
        st.store.filter (fun r => ¬(r.1 = follower_id ∧ r.2.1 = u))⟩)
  else (false, st)

end BlacklistManager

/-- C10: the blacklist normalizes symbols to upper case at its public
interface — after a successful `add(f, s, reason)`,
`is_blacklisted(f, s')` holds for every `s'` equal to `s` up to letter
case; `add` returns `False` and leaves cache and Store unchanged when the
pair is already blacklisted; `remove` returns `False` and changes nothing
when the pair is absent. -/
theorem claim_C10_blacklist_case_insensitive (st : BlacklistState)
    (f s s' reason : String)
    (hcase : pyUpper s' = pyUpper s)
    (hadded : (BlacklistManager.add st f s reason).1 = true) :
    BlacklistManager.is_blacklisted (BlacklistManager.add st f s reason).2 f s'
        = true ∧
      (∀ (st' : BlacklistState) (g t r : String),
        BlacklistManager.is_blacklisted st' g t = true →
          BlacklistManager.add st' g t r = (false, st')) ∧
      (∀ (st' : BlacklistState) (g t : String),
        BlacklistManager.is_blacklisted st' g t = false →
          BlacklistManager.remove st' g t = (false, st')) := by
  refine ⟨?_, ?_, ?_⟩
  · rw [BlacklistManager.add] at hadded ⊢
    by_cases hmem : (AssocMap.lookup (f, pyUpper s) st.cache).isSome = true
    · rw [if_pos hmem] at hadded
      exact absurd hadded (fun hc => Bool.false_ne_true hc)
    · rw [if_neg hmem] at hadded ⊢
      rw [BlacklistManager.is_blacklisted, hcase]
      show (AssocMap.lookup (f, pyUpper s)
        (AssocMap.insert (f, pyUpper s) reason st.cache)).isSome = true
      rw [AssocMap.lookup_insert_self]
      rfl
  · intro st' g t r hbl
    rw [BlacklistManager.is_blacklisted] at hbl
    rw [BlacklistManager.add, if_pos hbl]
  · intro st' g t hbl
    rw [BlacklistManager.is_blacklisted] at hbl
    rw [BlacklistManager.remove, if_neg (by rw [hbl]; exact Bool.false_ne_true)]

/-- C10 witness: blacklist `aapl` for `F1` on a fresh manager, then
observe `AAPL` blacklisted. -/
theorem claim_C10_blacklist_case_insensitive_witness :
    BlacklistManager.is_blacklisted
        (BlacklistManager.add BlacklistManager.initState "F1" "aapl" "manual").2
        "F1" "AAPL" = true := by
  have h := claim_C10_blacklist_case_insensitive BlacklistManager.initState
    "F1" "aapl" "AAPL" "manual" (by decide) (by decide)
  exact h.1

/-!
ShortSaleManager task state — `src/backend/app/engine/short_sale_manager.py`.
-/

namespace ShortSaleManager

/-- The `ShortSaleTask` dataclass (lines 41–59), without the wall-clock
`created_at` field. -/
structure ShortSaleTask where
  id : String
  follower_id : String
  symbol : String
  master_order_id : ℤ
  required_qty : ℤ
  status : String
  locate_deficit : ℤ
  error : Option String
  follower_order_id : Option ℤ

/-- Manager state relevant to cancellation: the task registry and the
monotonically growing `_cancelled_master_orders` set (lines 83, 92). -/
structure SSState where
  tasks : List ShortSaleTask
  cancelled_master_orders : List ℤ

/-- The status tuple `("pending", "checking", "locating")` used both by
`on_master_order_cancelled` (lines 150–154) and `cancel_task`
(line 170). -/
def cancellableStatuses : List String := ["pending", "checking", "locating"]

/-- Lines 141–160 (`on_master_order_cancelled`): add the master order id
to `_cancelled_master_orders`, then `cancel_task` every task that
references it and is still `pending`/`checking`/`locating`. Both
`cancel_task` paths end with `status = "cancelled"`: the direct path sets
it at line 171, and the `future.cancel()` path lands in the
`CancelledError` handler of `_execute_task` (lines 238–241) which sets
the same status. -/
def on_master_order_cancelled (st : SSState) (master_order_id : ℤ) : SSState :=
  { cancelled_master_orders := master_order_id :: st.cancelled_master_orders
    tasks := st.tasks.map (fun t =>
      if t.master_order_id = master_order_id ∧ t.status ∈ cancellableStatuses
      then { t with status := "cancelled" } else t) }

/-- Tail of `_execute_task_locked` after the locate has returned
(lines 362–395): re-check `_cancelled_master_orders` before placing the
order; only when the id is absent is `OrderReplicator.replicate_order`
invoked. `order_result` is what that call would return. The boolean
records whether the order-placement call was made at all. -/
def resume_after_locate (cancelled : List ℤ) (t : ShortSaleTask)
    (order_result : Option ℤ) : ShortSaleTask × Bool :=
  if t.master_order_id ∈ cancelled then
    ({ t with
        status := "cancelled"
        error := some "Master order cancelled after locate" }, false)
  else
    match order_result with
    | some oid =>
        ({ t with status := "completed", follower_order_id := some oid }, true)
    | none =>
        ({ t with
            status := "failed"
            error := some "Order submission failed or was rejected" }, true)

end ShortSaleManager

/-- C1: after `on_master_order_cancelled(m)`, every task for master order
`m` still `pending`/`checking`/`locating` is in the registry with status
`cancelled`, the id `m` is recorded in `_cancelled_master_orders`, and a
task for `m` that resumes after an in-flight locate — even a successful
one — re-checks that set, ends `cancelled`, and never reaches the order
submission call. -/
theorem claim_C1_cancel_is_final (st : ShortSaleManager.SSState)
    (m : ℤ) (t : ShortSaleManager.ShortSaleTask)
    (ht : t ∈ st.tasks)
    (hmid : t.master_order_id = m)
    (hstatus : t.status ∈ ShortSaleManager.cancellableStatuses) :
    { t with status := "cancelled" }
        ∈ (ShortSaleManager.on_master_order_cancelled st m).tasks ∧
      m ∈ (ShortSaleManager.on_master_order_cancelled st m).cancelled_master_orders ∧
      ∀ (t' : ShortSaleManager.ShortSaleTask) (oid : Option ℤ),
        t'.master_order_id = m →
          ShortSaleManager.resume_after_locate
              (ShortSaleManager.on_master_order_cancelled st m).cancelled_master_orders
              t' oid
            = ({ t' with
                status := "cancelled"
                error := some "Master order cancelled after locate" }, false) := by
  refine ⟨?_, ?_, ?_⟩
  · refine List.mem_map.mpr ⟨t, ht, ?_⟩
    show (if t.master_order_id = m
          ∧ t.status ∈ ShortSaleManager.cancellableStatuses
        then { t with status := "cancelled" } else t)
      = { t with status := "cancelled" }
    rw [if_pos ⟨hmid, hstatus⟩]
  · exact List.mem_cons_self m _
  · intro t' oid hmid'
    rw [ShortSaleManager.resume_after_locate.eq_def,
      if_pos (show t'.master_order_id ∈ _ from by
        rw [hmid']
        exact List.mem_cons_self m _)]

/-- C1 witness: one `locating` task for master order `5`; after
cancellation it is `cancelled`, and resuming with a successful locate and
a would-be-successful order submission still submits nothing. -/
theorem claim_C1_cancel_is_final_witness :
    { id := "sst-1", follower_id := "F1", symbol := "XYZ",
        master_order_id := 5, required_qty := 100, status := "cancelled",
        locate_deficit := 40, error := none, follower_order_id := none :
        ShortSaleManager.ShortSaleTask }
        ∈ (ShortSaleManager.on_master_order_cancelled
            ⟨[{ id := "sst-1", follower_id := "F1", symbol := "XYZ",
                master_order_id := 5, required_qty := 100, status := "locating",
                locate_deficit := 40, error := none, follower_order_id := none }],
              []⟩ 5).tasks ∧
      (ShortSaleManager.resume_after_locate
          (ShortSaleManager.on_master_order_cancelled
            ⟨[{ id := "sst-1", follower_id := "F1", symbol := "XYZ",
                master_order_id := 5, required_qty := 100, status := "locating",
                locate_deficit := 40, error := none, follower_order_id := none }],
              []⟩ 5).cancelled_master_orders
          { id := "sst-1", follower_id := "F1", symbol := "XYZ",
            master_order_id := 5, required_qty := 100, status := "locating",
            locate_deficit := 40, error := none, follower_order_id := none }
          (some 99)).2 = false := by
  have h := claim_C1_cancel_is_final
    ⟨[{ id := "sst-1", follower_id := "F1", symbol := "XYZ",
        master_order_id := 5, required_qty := 100, status := "locating",
        locate_deficit := 40, error := none, follower_order_id := none }], []⟩
    5
    { id := "sst-1", follower_id := "F1", symbol := "XYZ",
      master_order_id := 5, required_qty := 100, status := "locating",
      locate_deficit := 40, error := none, follower_order_id := none }
    (List.mem_singleton.mpr rfl) rfl (by decide)
  refine ⟨h.1, ?_⟩
  rw [h.2.2 _ (some 99) rfl]

/-!
ActionQueue and the locate fan-out of ReplicationEngine —
`src/backend/app/engine/action_queue.py` and
`src/backend/app/engine/replication_engine.py`.
-/

namespace ActionQueue

/-- The `QueuedActionType` enum exactly as declared at
`action_queue.py` lines 18–23: three members, and no `LOCATE`. -/
inductive QueuedActionType
  | ORDER_SUBMIT
  | ORDER_CANCEL
  | ORDER_REPLACE
deriving DecidableEq

/-- Python attribute access `QueuedActionType.<name>` on the enum class:
a declared member, or an `AttributeError` for any other name. -/
def QueuedActionType.getattr (name : String) : Except String QueuedActionType :=
  if name = "ORDER_SUBMIT" then .ok .ORDER_SUBMIT
  else if name = "ORDER_CANCEL" then .ok .ORDER_CANCEL
  else if name = "ORDER_REPLACE" then .ok .ORDER_REPLACE
  else .error ("AttributeError: " ++ name)

end ActionQueue

namespace ReplicationEngine

/-- What `_on_master_locate_updated` does for one follower. -/
inductive LocateDispatch
  | enqueued (action_type : ActionQueue.QueuedActionType)
      (master_qty : ℤ) (master_price : ℚ)
  | delegated

/-- Per-follower body of the loop in `_on_master_locate_updated`
(`replication_engine.py` lines 417–449): a disconnected follower gets a
queued action whose `action_type` is the attribute `QueuedActionType.LOCATE`
with the master quantity and price in the payload; a connected follower is
delegated to `LocateReplicator.replicate_locate`. The attribute access is
modelled by `getattr` because `LOCATE` is not among the members the enum
declares. -/
def locate_dispatch_follower (connected : Bool) (qty : ℤ) (price : ℚ) :
    Except String LocateDispatch :=
  if connected then .ok .delegated
  else
    match ActionQueue.QueuedActionType.getattr "LOCATE" with
    | .ok t => .ok (.enqueued t qty price)
    | .error e => .error e

end ReplicationEngine

/-- C2 evidence: on a master locate fill, a connected follower is indeed
delegated to the LocateReplicator, but dispatch for a disconnected
follower cannot enqueue a `locate` action — the enum
`QueuedActionType` declares no `LOCATE` member, so the attribute access
in `_on_master_locate_updated` raises `AttributeError` instead of
queueing; no `QueuedActionType` value can come out of that access. -/
theorem claim_C2_locate_enqueue_raises :
    (∀ (qty : ℤ) (price : ℚ),
        ReplicationEngine.locate_dispatch_follower true qty price
          = .ok .delegated) ∧
      (∀ (qty : ℤ) (price : ℚ),
        ReplicationEngine.locate_dispatch_follower false qty price
          = .error ("AttributeError: " ++ "LOCATE")) ∧
      ∀ t : ActionQueue.QueuedActionType,
        ActionQueue.QueuedActionType.getattr "LOCATE" ≠ .ok t := by
  refine ⟨fun qty price => rfl, fun qty price => ?_, fun t hc => ?_⟩
  · rw [ReplicationEngine.locate_dispatch_follower]
    rw [if_neg (fun hc => Bool.false_ne_true hc)]
    rw [show ActionQueue.QueuedActionType.getattr "LOCATE"
      = .error ("AttributeError: " ++ "LOCATE") from rfl]
  · rw [show ActionQueue.QueuedActionType.getattr "LOCATE"
      = .error ("AttributeError: " ++ "LOCATE") from rfl] at hc
    cases hc

/-!
ShortSaleManager concurrency skeleton —
`src/backend/app/engine/short_sale_manager.py` lines 88–89 and 226–330.
Each short-sale task runs `_execute_task`: it takes the per-(follower,
symbol) `asyncio.Lock` (line 236), and inside the lock either skips
locating (`deficit ≤ 0`), or enters `async with self._global_semaphore`
(line 317) and then awaits `client.smart_locate` (line 325) while holding
both. The cooperative scheduler is modelled as a transition system over
each task's position in that skeleton; any interleaving of task steps is
a behaviour.
-/

namespace ShortSaleConcurrency

/-- The `(follower_id, symbol)` key of `_get_symbol_lock`. -/
abbrev Key := String × String

/-- Position of one task inside `_execute_task`/`_execute_task_locked`. -/
inductive PC
  | idle
  | locked
  | acquiredSem
  | inflight
  | finished
deriving DecidableEq

/-- The per-key `asyncio.Lock` is held from `async with lock` entry until
`_execute_task_locked` returns. -/
def holdsLock : PC → Bool
  | .locked => true
  | .acquiredSem => true
  | .inflight => true
  | _ => false

/-- The global semaphore is held inside `async with self._global_semaphore`,
which spans the cancellation re-check and the `smart_locate` call. -/
def holdsSem : PC → Bool
  | .acquiredSem => true
  | .inflight => true
  | _ => false

/-- A `smart_locate` call is in flight. -/
def isInflight : PC → Bool
  | .inflight => true
  | _ => false

/-- Number of tasks whose position satisfies `p`. -/
def countP (n : ℕ) (pcs : Fin n → PC) (p : PC → Bool) : ℕ :=
  (Finset.univ.filter (fun i => p (pcs i) = true)).card

/-- One cooperative-scheduler step of some task `i`. `asyncio.Lock` only
admits a holder when no other task holds the same key's lock;
`asyncio.Semaphore(cap)` only admits a holder when fewer than `cap` tasks
hold it. -/
inductive Step (n : ℕ) (keys : Fin n → Key) (cap : ℕ) :
    (Fin n → PC) → (Fin n → PC) → Prop
  | acquire_lock (pcs : Fin n → PC) (i : Fin n) (h : pcs i = .idle)
      (hfree : ∀ j, j ≠ i → keys j = keys i → holdsLock (pcs j) = false) :
      Step n keys cap pcs (Function.update pcs i .locked)
  | skip_locate (pcs : Fin n → PC) (i : Fin n) (h : pcs i = .locked) :
      Step n keys cap pcs (Function.update pcs i .finished)
  | acquire_sem (pcs : Fin n → PC) (i : Fin n) (h : pcs i = .locked)
      (hcap : countP n pcs holdsSem < cap) :
      Step n keys cap pcs (Function.update pcs i .acquiredSem)
  | abort_cancelled (pcs : Fin n → PC) (i : Fin n) (h : pcs i = .acquiredSem) :
      Step n keys cap pcs (Function.update pcs i .finished)
  | start_locate (pcs : Fin n → PC) (i : Fin n) (h : pcs i = .acquiredSem) :
      Step n keys cap pcs (Function.update pcs i .inflight)
  | finish (pcs : Fin n → PC) (i : Fin n) (h : pcs i = .inflight) :
      Step n keys cap pcs (Function.update pcs i .finished)

/-- Every task starts before the `async with lock`. -/
def initState (n : ℕ) : Fin n → PC := fun _ => PC.idle

/-- States the scheduler can reach by interleaving task steps. -/
def Reachable (n : ℕ) (keys : Fin n → Key) (cap : ℕ) (pcs : Fin n → PC) :
    Prop :=
  Relation.ReflTransGen (Step n keys cap) (initState n) pcs

/-- Safety invariant: per-key mutual exclusion of the lock, and the
semaphore never over-admitted. -/
def Good (n : ℕ) (keys : Fin n → Key) (cap : ℕ) (pcs : Fin n → PC) : Prop :=
  (∀ i j, i ≠ j → keys i = keys j →
      ¬(holdsLock (pcs i) = true ∧ holdsLock (pcs j) = true)) ∧
    countP n pcs holdsSem ≤ cap

theorem countP_update (n : ℕ) (pcs : Fin n → PC) (i : Fin n) (v : PC)
    (p : PC → Bool) :
    countP n (Function.update pcs i v) p + (if p (pcs i) = true then 1 else 0)
      = countP n pcs p + (if p v = true then 1 else 0) := by
  classical
  rw [countP, countP, Finset.card_filter, Finset.card_filter]
  rw [← Finset.add_sum_erase _
    (fun j => if p (Function.update pcs i v j) = true then 1 else 0)
    (Finset.mem_univ i)]
  rw [← Finset.add_sum_erase _
    (fun j => if p (pcs j) = true then 1 else 0)
    (Finset.mem_univ i)]
  have h1 : Function.update pcs i v i = v := Function.update_same i v pcs
  have h2 : ∑ x in Finset.univ.erase i,
      (if p (Function.update pcs i v x) = true then 1 else 0)
      = ∑ x in Finset.univ.erase i, (if p (pcs x) = true then 1 else 0) := by
    apply Finset.sum_congr rfl
    intro x hx
    rw [Function.update_noteq (Finset.ne_of_mem_erase hx)]
  rw [h1, h2]
  omega

theorem mutex_update (n : ℕ) (keys : Fin n → Key) (pcs : Fin n → PC)
    (i : Fin n) (v : PC)
    (hmut : ∀ a b, a ≠ b → keys a = keys b →
      ¬(holdsLock (pcs a) = true ∧ holdsLock (pcs b) = true))
    (hv : holdsLock v = true →
      ∀ j, j ≠ i → keys j = keys i → holdsLock (pcs j) = false) :
    ∀ a b, a ≠ b → keys a = keys b →
      ¬(holdsLock (Function.update pcs i v a) = true ∧
        holdsLock (Function.update pcs i v b) = true) := by
  intro a b hab hk ⟨ha, hb⟩
  by_cases hai : a = i
  · subst hai
    rw [Function.update_same] at ha
    have hbne : b ≠ a := fun hc => hab hc.symm
    rw [Function.update_noteq hbne] at hb
    rw [hv ha b hbne hk.symm] at hb
    cases hb
  · rw [Function.update_noteq hai] at ha
    by_cases hbi : b = i
    · subst hbi
      rw [Function.update_same] at hb
      rw [hv hb a hai hk] at ha
      cases ha
    · rw [Function.update_noteq hbi] at hb
      exact hmut a b hab hk ⟨ha, hb⟩

theorem good_step (n : ℕ) (keys : Fin n → Key) (cap : ℕ)
    (pcs pcs' : Fin n → PC) (hg : Good n keys cap pcs)
    (hs : Step n keys cap pcs pcs') : Good n keys cap pcs' := by
  obtain ⟨hmut, hsem⟩ := hg
  cases hs with
  | acquire_lock i h hfree =>
    refine ⟨mutex_update n keys pcs i .locked hmut (fun _ => hfree), ?_⟩
    have hc := countP_update n pcs i .locked holdsSem
    rw [h] at hc
    simp [holdsSem] at hc
    omega
  | skip_locate i h =>
    refine ⟨mutex_update n keys pcs i .finished hmut
      (fun hfalse => absurd hfalse (by decide)), ?_⟩
    have hc := countP_update n pcs i .finished holdsSem
    rw [h] at hc
    simp [holdsSem] at hc
    omega
  | acquire_sem i h hcap =>
    refine ⟨mutex_update n keys pcs i .acquiredSem hmut
      (fun _ j hj hk => ?_), ?_⟩
    · cases hlk : holdsLock (pcs j) with
      | false => rfl
      | true =>
        exact absurd (⟨hlk, by rw [h]; rfl⟩ :
          holdsLock (pcs j) = true ∧ holdsLock (pcs i) = true)
          (hmut j i hj hk)
    · have hc := countP_update n pcs i .acquiredSem holdsSem
      rw [h] at hc
      simp [holdsSem] at hc
      omega
  | abort_cancelled i h =>
    refine ⟨mutex_update n keys pcs i .finished hmut
      (fun hfalse => absurd hfalse (by decide)), ?_⟩
    have hc := countP_update n pcs i .finished holdsSem
    rw [h] at hc
    simp [holdsSem] at hc
    omega
  | start_locate i h =>
    refine ⟨mutex_update n keys pcs i .inflight hmut
      (fun _ j hj hk => ?_), ?_⟩
    · cases hlk : holdsLock (pcs j) with
      | false => rfl
      | true =>
        exact absurd (⟨hlk, by rw [h]; rfl⟩ :
          holdsLock (pcs j) = true ∧ holdsLock (pcs i) = true)
          (hmut j i hj hk)
    · have hc := countP_update n pcs i .inflight holdsSem
      rw [h] at hc
      simp [holdsSem] at hc
      omega
  | finish i h =>
    refine ⟨mutex_update n keys pcs i .finished hmut
      (fun hfalse => absurd hfalse (by decide)), ?_⟩
    have hc := countP_update n pcs i .finished holdsSem
    rw [h] at hc
    simp [holdsSem] at hc
    omega

theorem good_init (n : ℕ) (keys : Fin n → Key) (cap : ℕ) :
    Good n keys cap (initState n) := by
  constructor
  · intro i j hij hk ⟨hi, hj⟩
    rw [show holdsLock (initState n i) = false from rfl] at hi
    cases hi
  · rw [countP]
    have : Finset.univ.filter
        (fun i : Fin n => holdsSem (initState n i) = true) = ∅ := by
      apply Finset.filter_false_of_mem
      intro i _
      rw [show holdsSem (initState n i) = false from rfl]
      exact Bool.false_ne_true
    rw [this]
    simp

theorem good_reachable (n : ℕ) (keys : Fin n → Key) (cap : ℕ)
    (pcs : Fin n → PC) (hreach : Reachable n keys cap pcs) :
    Good n keys cap pcs := by
  induction hreach with
  | refl => exact good_init n keys cap
  | tail hsteps hstep ih => exact good_step n keys cap _ _ ih hstep

/-- `_DEFAULT_MAX_CONCURRENT_LOCATES` (line 38). -/
def default_max_concurrent_locates : ℕ := 3

end ShortSaleConcurrency

/-- C9: in every scheduler-reachable state of the short-sale workflow,
no two distinct tasks with the same `(follower, symbol)` key have
`smart_locate` calls simultaneously in flight (the per-pair lock is held
across the call), and the number of in-flight `smart_locate` calls never
exceeds the semaphore capacity, whose default is `3`. -/
theorem claim_C9_locate_concurrency (n cap : ℕ)
    (keys : Fin n → ShortSaleConcurrency.Key)
    (pcs : Fin n → ShortSaleConcurrency.PC)
    (hreach : ShortSaleConcurrency.Reachable n keys cap pcs) :
    (∀ i j, i ≠ j → keys i = keys j →
        ¬(pcs i = ShortSaleConcurrency.PC.inflight ∧
          pcs j = ShortSaleConcurrency.PC.inflight)) ∧
      ShortSaleConcurrency.countP n pcs ShortSaleConcurrency.isInflight ≤ cap ∧
      ShortSaleConcurrency.default_max_concurrent_locates = 3 := by
  obtain ⟨hmut, hsem⟩ := ShortSaleConcurrency.good_reachable n keys cap pcs hreach
  refine ⟨?_, ?_, rfl⟩
  · intro i j hij hk ⟨hi, hj⟩
    exact hmut i j hij hk ⟨by rw [hi]; rfl, by rw [hj]; rfl⟩
  · refine le_trans (Finset.card_le_card ?_) hsem
    intro x hx
    rw [Finset.mem_filter] at hx ⊢
    refine ⟨hx.1, ?_⟩
    have h2 := hx.2
    cases hpc : pcs x with
    | idle => rw [hpc] at h2; exact absurd h2 (by decide)
    | locked => rw [hpc] at h2; exact absurd h2 (by decide)
    | acquiredSem => rw [hpc] at h2; exact absurd h2 (by decide)
    | inflight => rfl
    | finished => rw [hpc] at h2; exact absurd h2 (by decide)

/-- C9 witness: four tasks on the same symbol under the default cap of
three, at the initial state (reachable by the empty schedule). -/
theorem claim_C9_locate_concurrency_witness :
    (∀ i j : Fin 4, i ≠ j →
        (fun _ : Fin 4 => (("F1", "AAPL") : ShortSaleConcurrency.Key)) i
          = (fun _ : Fin 4 => (("F1", "AAPL") : ShortSaleConcurrency.Key)) j →
        ¬(ShortSaleConcurrency.initState 4 i = ShortSaleConcurrency.PC.inflight ∧
          ShortSaleConcurrency.initState 4 j = ShortSaleConcurrency.PC.inflight)) ∧
      ShortSaleConcurrency.countP 4 (ShortSaleConcurrency.initState 4)
        ShortSaleConcurrency.isInflight ≤ 3 := by
  have h := claim_C9_locate_concurrency 4 3
    (fun _ => (("F1", "AAPL") : ShortSaleConcurrency.Key))
    (ShortSaleConcurrency.initState 4)
    Relation.ReflTransGen.refl
  exact ⟨h.1, h.2.1⟩
